import Mathlib

/-!
Verification of the ChatPDF frontend (ChatUI) against its specification.

The development shallowly embeds the client-side logic of the repository:

* `src/ChatUI/src/services/api.js` — the transport client (`request`,
  `uploadDocuments` error messages) and the streaming consumer
  (`streamMessage` / `processStream`);
* `src/unnamed/part_000` (App.jsx) — the session/document orchestrator
  (`onDrop` reconciliation, `pollProcessingStatus` merge and scheduling,
  `deleteDocument`) and the chat orchestrator (`sendMessage`).

JavaScript strings are modelled as lists of characters (`JStr`), with the
string operations the source uses (`split`, `startsWith`, `slice`, `trim`)
given executable structural definitions matching JavaScript semantics.
The host platform's `JSON.parse` is not repository code; it is kept
abstract as a `parse : JStr → Option α` parameter, constrained by
hypotheses only where a claim depends on how a concrete payload parses.
-/

/-- JavaScript strings, modelled as lists of characters. -/
abbrev JStr := List Char

/-- The character list of a Lean string literal (used to write `JStr`
constants readably). -/
def str (s : String) : JStr := s.data

/-- JavaScript `s.split(sep)` for a single-character separator: splits at
every occurrence of the separator, keeping empty pieces (so the result is
always nonempty, and a trailing separator yields a trailing empty piece). -/
def jsSplit (sep : Char) : JStr → List JStr
  | [] => [[]]
  | c :: rest =>
    let r := jsSplit sep rest
    if c = sep then [] :: r
    else (c :: r.headD []) :: r.tail

/-- JavaScript `s.startsWith(pre)`. -/
def jsStartsWith : JStr → JStr → Bool
  | [], _ => true
  | _ :: _, [] => false
  | p :: ps, c :: cs => p = c && jsStartsWith ps cs

/-- JavaScript `s.slice(n)` (for `n ≥ 0`): drop the first `n` code units. -/
def jsDrop (n : Nat) (s : JStr) : JStr := List.drop n s

/-- JavaScript `s.trim()`: strip whitespace from both ends. -/
def jsTrim (s : JStr) : JStr :=
  ((s.dropWhile Char.isWhitespace).reverse.dropWhile Char.isWhitespace).reverse

/-! ## Streaming consumer (`api.js`, `streamMessage` / `processStream`) -/

/-- Observable callback events of `streamMessage`: an `onChunk` call with a
parsed value, an `onComplete` call, or an `onError` call. -/
inductive Event (α : Type) where
  | chunk (v : α)
  | complete
  | error
deriving DecidableEq, Repr

/-- How the underlying reader ends once all queued reads are consumed:
`done` models `reader.read()` resolving with `done: true`; `fail` models the
read promise rejecting (caught by `processStream().catch(onError)`). -/
inductive ReadEnd where
  | done
  | fail
deriving DecidableEq, Repr

/-- The `data: ` event marker of the stream protocol (`api.js` line 152). -/
def dataMarker : JStr := str "data: "

/-- The `[DONE]` sentinel payload (`api.js` line 155). -/
def doneLit : JStr := str "[DONE]"

/-- The `for (const line of lines)` body of `processStream` (`api.js`
lines 151–167): lines starting with `data: ` are frames; a `[DONE]` payload
calls `onComplete` and returns from `processStream` (second component
`true`); other payloads are passed to `JSON.parse`, a successful parse is
forwarded to `onChunk`, a parse failure is ignored. -/
def processLines (parse : JStr → Option α) : List JStr → List (Event α) × Bool
  | [] => ([], false)
  | line :: rest =>
    if jsStartsWith dataMarker line then
      let data := jsDrop 6 line
      if data = doneLit then ([Event.complete], true)
      else
        match parse data with
        | some v =>
          let r := processLines parse rest
          (Event.chunk v :: r.1, r.2)
        | none => processLines parse rest
    else processLines parse rest

/-- The `processStream` read loop (`api.js` lines 139–169): each
`reader.read()` yields a decoded text chunk which is split on `'\n'` and
processed line by line; `done: true` triggers `onComplete`; a `[DONE]`
frame returns early. `reads` is the sequence of decoded chunks and `e`
says how the stream ends after them. -/
def processStream (parse : JStr → Option α) : List JStr → ReadEnd → List (Event α)
  | [], ReadEnd.done => [Event.complete]
  | [], ReadEnd.fail => [Event.error]
  | chunkText :: rest, e =>
    let r := processLines parse (jsSplit '\n' chunkText)
    if r.2 then r.1 else r.1 ++ processStream parse rest e

/-- The initial HTTP response seen by `streamMessage`'s `then` branch:
its `ok` flag and status (unused by the source), and the body reads. -/
structure StreamResponse where
  ok : Bool
  status : Nat
  reads : List JStr
  readEnd : ReadEnd

/-- `streamMessage` (`api.js` lines 123–173): a rejected `fetch` invokes
`onError` (the outer `.catch(onError)`); a settled response — whatever its
status — has its body processed by `processStream`. There is no
`response.ok` check in the source. -/
def streamMessage (parse : JStr → Option α) :
    Except Unit StreamResponse → List (Event α)
  | Except.error _ => [Event.error]
  | Except.ok resp => processStream parse resp.reads resp.readEnd

/-- The payload `{"a":1}` of the specification's example stream. -/
def payloadA1 : JStr := str "\x7b\"a\":1\x7d"

/-- The payload `{"a":2}` of the specification's example stream. -/
def payloadA2 : JStr := str "\x7b\"a\":2\x7d"

/-- A complete protocol frame `data: <payload>\n`. -/
def frameOf (payload : JStr) : JStr := dataMarker ++ payload ++ ['\n']

/-- A protocol line `data: <payload>` (a frame without its newline). -/
def lineOf (payload : JStr) : JStr := dataMarker ++ payload

/-- Values of the two example payloads, standing for the JavaScript objects
`{a:1}` and `{a:2}`. -/
inductive DemoVal where
  | a1
  | a2
deriving DecidableEq, Repr

/-- A concrete stand-in for the platform `JSON.parse` on the example
payloads: `{"a":1}` and `{"a":2}` parse to their objects, and every other
string occurring in the example streams (all of them invalid JSON, such as
the truncated `{"a`) fails to parse. Used only to build closed witnesses
and counterexamples; the theorems keep `parse` abstract. -/
def demoParse (s : JStr) : Option DemoVal :=
  if s = payloadA1 then some DemoVal.a1
  else if s = payloadA2 then some DemoVal.a2
  else none

example : jsSplit '\n' (str "a\nb") = [str "a", str "b"] := by decide
example : jsSplit '\n' (str "a\n") = [str "a", []] := by decide
example : jsSplit '\n' [] = [[]] := by decide
example : jsStartsWith dataMarker (str "data: x") = true := by decide
example : jsDrop 6 (str "data: x") = str "x" := by decide
example : jsTrim (str "  hi ") = str "hi" := by decide
example :
    processStream demoParse [frameOf payloadA1 ++ frameOf payloadA2 ++ frameOf doneLit]
      ReadEnd.done =
      [Event.chunk DemoVal.a1, Event.chunk DemoVal.a2, Event.complete] := by decide

/-! ### Splitting lemmas for the line protocol -/

theorem jsSplit_ne_nil (sep : Char) : ∀ s : JStr, jsSplit sep s ≠ []
  | [] => by simp [jsSplit]
  | c :: rest => by
    simp only [jsSplit]
    split
    · simp
    · simp

theorem jsSplit_sep_cons (sep : Char) (s : JStr) :
    jsSplit sep (sep :: s) = [] :: jsSplit sep s := by
  simp [jsSplit]


theorem jsSplit_cons_ne (sep c : Char) (s : JStr) (hc : c ≠ sep) :
    jsSplit sep (c :: s) =
      (c :: (jsSplit sep s).headD []) :: (jsSplit sep s).tail := by
  simp [jsSplit, hc]

theorem jsSplit_line (sep : Char) :
    ∀ (line : JStr), sep ∉ line → ∀ rest : JStr,
      jsSplit sep (line ++ sep :: rest) = line :: jsSplit sep rest
  | [], _, rest => by simp [jsSplit_sep_cons]
  | c :: line, h, rest => by
    have hc : c ≠ sep := fun hcs => h (hcs ▸ List.mem_cons_self c line)
    have hl : sep ∉ line := fun hm => h (List.mem_cons_of_mem c hm)
    have ih := jsSplit_line sep line hl rest
    rw [List.cons_append, jsSplit_cons_ne sep c _ hc, ih]
    rfl

theorem newline_not_mem_dataMarker : ('\n' : Char) ∉ dataMarker := by decide

/-- Splitting the concatenation of whole frames (followed by any tail text)
on newlines yields the corresponding protocol lines followed by the split
of the tail. -/
theorem jsSplit_pairs_flatten {α : Type} :
    ∀ (pairs : List (JStr × α)), (∀ q ∈ pairs, ('\n' : Char) ∉ q.1) →
      ∀ s : JStr,
        jsSplit '\n' ((pairs.map fun q => frameOf q.1).flatten ++ s) =
          (pairs.map fun q => lineOf q.1) ++ jsSplit '\n' s
  | [], _, s => by simp
  | q :: pairs, h, s => by
    have hq : ('\n' : Char) ∉ dataMarker ++ q.1 := by
      intro hm
      rcases List.mem_append.1 hm with hm | hm
      · exact newline_not_mem_dataMarker hm
      · exact h q (List.mem_cons_self q pairs) hm
    have ih := jsSplit_pairs_flatten pairs
      (fun x hx => h x (List.mem_cons_of_mem q hx)) s
    calc jsSplit '\n' (((q :: pairs).map fun x => frameOf x.1).flatten ++ s)
        = jsSplit '\n' ((dataMarker ++ q.1) ++
            '\n' :: ((pairs.map fun x => frameOf x.1).flatten ++ s)) := by
          simp [frameOf, List.append_assoc]
      _ = (dataMarker ++ q.1) ::
            jsSplit '\n' ((pairs.map fun x => frameOf x.1).flatten ++ s) :=
          jsSplit_line '\n' (dataMarker ++ q.1) hq _
      _ = ((q :: pairs).map fun x => lineOf x.1) ++ jsSplit '\n' s := by
          simp [lineOf, ih]

theorem jsStartsWith_self_append : ∀ (pre s : JStr), jsStartsWith pre (pre ++ s) = true
  | [], _ => rfl
  | c :: pre, s => by simp [jsStartsWith, jsStartsWith_self_append pre s]

theorem jsDrop_marker (p : JStr) : jsDrop 6 (dataMarker ++ p) = p := by
  have h : dataMarker = ['d', 'a', 't', 'a', ':', ' '] := by decide
  rw [h]
  rfl

/-! ### Line-processing lemmas -/

theorem processLines_nil (parse : JStr → Option α) :
    processLines parse [] = ([], false) := rfl

theorem processLines_nondata (parse : JStr → Option α) (line : JStr)
    (h : jsStartsWith dataMarker line = false) (r : List JStr) :
    processLines parse (line :: r) = processLines parse r := by
  simp [processLines, h]

theorem processLines_empty_line (parse : JStr → Option α) (r : List JStr) :
    processLines parse ([] :: r) = processLines parse r :=
  processLines_nondata parse [] (by decide) r

theorem processLines_chunk (parse : JStr → Option α) (p : JStr) (v : α)
    (hne : p ≠ doneLit) (hv : parse p = some v) (r : List JStr) :
    processLines parse (lineOf p :: r) =
      (Event.chunk v :: (processLines parse r).1, (processLines parse r).2) := by
  simp [processLines, lineOf, jsStartsWith_self_append, jsDrop_marker, hne, hv]

theorem processLines_done (parse : JStr → Option α) (r : List JStr) :
    processLines parse (lineOf doneLit :: r) = ([Event.complete], true) := by
  simp [processLines, lineOf, jsStartsWith_self_append, jsDrop_marker]

theorem processLines_frame_lines (parse : JStr → Option α) :
    ∀ (pairs : List (JStr × α)),
      (∀ q ∈ pairs, parse q.1 = some q.2 ∧ q.1 ≠ doneLit) →
      ∀ r : List JStr,
        processLines parse ((pairs.map fun q => lineOf q.1) ++ r) =
          ((pairs.map fun q => Event.chunk q.2) ++ (processLines parse r).1,
            (processLines parse r).2)
  | [], _, r => by simp
  | q :: pairs, h, r => by
    have hq := h q (List.mem_cons_self q pairs)
    have ih := processLines_frame_lines parse pairs
      (fun x hx => h x (List.mem_cons_of_mem q hx)) r
    simp only [List.map_cons, List.cons_append,
      processLines_chunk parse q.1 q.2 hq.2 hq.1, ih]

/-- Splitting a mapped list along an append of its image. -/
theorem map_eq_append_split {α β : Type} {f : α → β} :
    ∀ {l : List α} {s t : List β}, l.map f = s ++ t →
      ∃ a b, l = a ++ b ∧ a.map f = s ∧ b.map f = t := by
  intro l s
  induction s generalizing l with
  | nil => intro t h; exact ⟨[], l, by simp, rfl, by simpa using h⟩
  | cons x s ih =>
    intro t h
    cases l with
    | nil => simp at h
    | cons y l =>
      simp only [List.map_cons, List.cons_append, List.cons.injEq] at h
      obtain ⟨a, b, hl, ha, hb⟩ := ih h.2
      exact ⟨y :: a, b, by simp [hl], by simp [ha, h.1], hb⟩

/-- Core streaming lemma: when every read delivered by the reader consists
of whole frames (no frame is split across read boundaries), a stream of
frames `data: p\n` for the payload/value pairs in `pairs`, terminated by a
`data: [DONE]\n` frame, produces exactly the `onChunk` calls for the pairs
in order followed by one `onComplete`, and nothing after the sentinel. -/
theorem processStream_whole_frames (parse : JStr → Option α) :
    ∀ (blocks : List (List JStr)) (pairs : List (JStr × α)),
      (∀ q ∈ pairs, parse q.1 = some q.2 ∧ ('\n' : Char) ∉ q.1 ∧ q.1 ≠ doneLit) →
      blocks.flatten = (pairs.map fun q => frameOf q.1) ++ [frameOf doneLit] →
      ∀ e, processStream parse (blocks.map List.flatten) e =
        (pairs.map fun q => Event.chunk q.2) ++ [Event.complete]
  | [], pairs, _, hb, e => by simp at hb
  | b :: blocks, pairs, hp, hb, e => by
    rw [List.flatten_cons] at hb
    rcases List.append_eq_append_iff.1 hb with ⟨a2, hF, hrest⟩ | ⟨c2, hb2, hd⟩
    · -- the first read is a (possibly empty) run of chunk frames
      obtain ⟨p1, p2, hsplit, hb1, ha2⟩ := map_eq_append_split hF
      have hp1 : ∀ q ∈ p1, parse q.1 = some q.2 ∧ ('\n' : Char) ∉ q.1 ∧ q.1 ≠ doneLit :=
        fun q hq => hp q (hsplit ▸ List.mem_append.2 (Or.inl hq))
      have hsplitread : jsSplit '\n' b.flatten =
          (p1.map fun q => lineOf q.1) ++ [[]] := by
        have h0 := jsSplit_pairs_flatten p1 (fun q hq => (hp1 q hq).2.1) []
        rw [hb1] at h0
        simpa using h0
      have hlines := processLines_frame_lines parse p1
        (fun q hq => ⟨(hp1 q hq).1, (hp1 q hq).2.2⟩) [[]]
      have ih := processStream_whole_frames parse blocks p2
        (fun q hq => hp q (hsplit ▸ List.mem_append.2 (Or.inr hq)))
        (by rw [hrest, ha2]) e
      simp only [List.map_cons, processStream, hsplitread, hlines,
        processLines_empty_line, processLines_nil]
      simp [ih, hsplit]
    · -- the first read also contains the sentinel frame
      cases c2 with
      | nil =>
        rw [List.append_nil] at hb2
        have hrest0 : blocks.flatten = [frameOf doneLit] := by
          simpa using hd.symm
        have hsplitread : jsSplit '\n' b.flatten =
            (pairs.map fun q => lineOf q.1) ++ [[]] := by
          have h0 := jsSplit_pairs_flatten pairs (fun q hq => (hp q hq).2.1) []
          rw [hb2]
          simpa using h0
        have hlines := processLines_frame_lines parse pairs
          (fun q hq => ⟨(hp q hq).1, (hp q hq).2.2⟩) [[]]
        have ih := processStream_whole_frames parse blocks []
          (by simp) (by simpa using hrest0) e
        simp only [List.map_cons, processStream, hsplitread, hlines,
          processLines_empty_line, processLines_nil]
        simp [ih]
      | cons d c3 =>
        have h1 : d = frameOf doneLit ∧ c3 ++ blocks.flatten = [] := by
          have h2 : d :: (c3 ++ blocks.flatten) = [frameOf doneLit] := by
            simpa using hd.symm
          simpa using h2
        have hc3 : c3 = [] := (List.append_eq_nil.1 h1.2).1
        have hread : b = (pairs.map fun q => frameOf q.1) ++ [frameOf doneLit] := by
          rw [hb2, h1.1, hc3]
        have hsplitread : jsSplit '\n' b.flatten =
            (pairs.map fun q => lineOf q.1) ++ [lineOf doneLit, []] := by
          have hflat : b.flatten =
              (pairs.map fun q => frameOf q.1).flatten ++ frameOf doneLit := by
            rw [hread]; simp
          have hdone : frameOf doneLit = lineOf doneLit ++ '\n' :: [] := by decide
          have hnl : ('\n' : Char) ∉ lineOf doneLit := by decide
          have h0 := jsSplit_pairs_flatten pairs (fun q hq => (hp q hq).2.1)
            (frameOf doneLit)
          rw [hflat, h0, hdone, jsSplit_line '\n' (lineOf doneLit) hnl]
          simp [jsSplit]
        have hlines := processLines_frame_lines parse pairs
          (fun q hq => ⟨(hp q hq).1, (hp q hq).2.2⟩) [lineOf doneLit, []]
        simp only [List.map_cons, processStream, hsplitread, hlines,
          processLines_done]
        simp

/-- `processLines` never produces an `onError` call: parse failures are
swallowed by the `try { ... } catch (e) { /* ignore */ }` in the source. -/
theorem processLines_no_error {α : Type} (parse : JStr → Option α) :
    ∀ ls : List JStr, Event.error ∉ (processLines parse ls).1
  | [] => by simp [processLines]
  | line :: rest => by
    have ih := processLines_no_error parse rest
    simp only [processLines]
    by_cases hs : jsStartsWith dataMarker line = true
    · simp only [hs, if_true]
      by_cases hdone : jsDrop 6 line = doneLit
      · simp [hdone]
      · simp only [hdone, if_false]
        cases hv : parse (jsDrop 6 line) with
        | some v => simpa [hv] using ih
        | none => simpa [hv] using ih
    · simp only [Bool.not_eq_true] at hs
      simpa [hs] using ih

/-! ## Claim C1 -/

/-- C1 (amended): for a stream whose decoded content is the frames
`data: {"a":1}\n`, `data: {"a":2}\n`, `data: [DONE]\n` delivered in one or
more reads, *provided no frame is split across read boundaries*,
`streamMessage` invokes `onChunk` with the parse of `{"a":1}` then of
`{"a":2}` in that order, then `onComplete` exactly once, and nothing is
invoked after the `[DONE]` sentinel frame (whatever follows it). -/
theorem stream_example_frames_in_order {α : Type} (parse : JStr → Option α)
    (v1 v2 : α) (h1 : parse payloadA1 = some v1) (h2 : parse payloadA2 = some v2)
    (blocks : List (List JStr))
    (hb : blocks.flatten = [frameOf payloadA1, frameOf payloadA2, frameOf doneLit])
    (e : ReadEnd) :
    processStream parse (blocks.map List.flatten) e =
      [Event.chunk v1, Event.chunk v2, Event.complete] := by
  have h := processStream_whole_frames parse blocks
    [(payloadA1, v1), (payloadA2, v2)]
    (by
      have hn1 : ('\n' : Char) ∉ payloadA1 := by decide
      have hn2 : ('\n' : Char) ∉ payloadA2 := by decide
      have hd1 : payloadA1 ≠ doneLit := by decide
      have hd2 : payloadA2 ≠ doneLit := by decide
      intro q hq
      rcases List.mem_cons.1 hq with h | hq
      · subst h; exact ⟨h1, hn1, hd1⟩
      · rcases List.mem_cons.1 hq with h | hq
        · subst h; exact ⟨h2, hn2, hd2⟩
        · simp at hq)
    (by simpa using hb) e
  simpa using h

theorem stream_example_frames_in_order_witness :
    processStream demoParse
      ([[frameOf payloadA1], [frameOf payloadA2, frameOf doneLit]].map List.flatten)
      ReadEnd.done =
      [Event.chunk DemoVal.a1, Event.chunk DemoVal.a2, Event.complete] :=
  stream_example_frames_in_order demoParse DemoVal.a1 DemoVal.a2 (by decide) (by decide)
    [[frameOf payloadA1], [frameOf payloadA2, frameOf doneLit]] (by decide) ReadEnd.done

/-- Reads whose decoded content is exactly the three example frames, but
with the first frame split across the two reads (as chunked transport may
do). -/
def splitReadsC1 : List JStr :=
  [str "data: \x7b\"a", str "\":1\x7d\ndata: \x7b\"a\":2\x7d\ndata: [DONE]\n"]

/-- C1 as stated is false: the decoded content of `splitReadsC1` consists of
exactly the frames `data: {"a":1}\n`, `data: {"a":2}\n`, `data: [DONE]\n`
(in two reads), the parse function parses both example payloads, yet
`onChunk` is never invoked with the first value: the source splits each
read separately on newlines and keeps no buffer across reads, so the split
frame's partial payload `{"a` fails to parse and is dropped. -/
theorem stream_example_frames_counterexample :
    splitReadsC1.flatten =
      [frameOf payloadA1, frameOf payloadA2, frameOf doneLit].flatten
    ∧ demoParse payloadA1 = some DemoVal.a1
    ∧ demoParse payloadA2 = some DemoVal.a2
    ∧ processStream demoParse splitReadsC1 ReadEnd.done =
        [Event.chunk DemoVal.a2, Event.complete]
    ∧ Event.chunk DemoVal.a1 ∉ processStream demoParse splitReadsC1 ReadEnd.done := by
  decide

/-! ## Claim C2 -/

/-- C2 (amended): a fetch-level network failure invokes `onError` exactly
once, with no `onChunk` or `onComplete` afterwards. (A non-OK initial HTTP
response, by contrast, is not treated as an error by the source — see the
counterexample.) -/
theorem stream_network_error_single {α : Type} (parse : JStr → Option α) :
    streamMessage parse (Except.error ()) = [Event.error] := rfl

/-- C2 as stated is false for the non-OK half: `streamMessage` never checks
`response.ok`, so a settled HTTP 500 response with an empty body produces an
`onComplete` call and no `onError` at all. -/
theorem stream_non_ok_counterexample :
    streamMessage demoParse
        (Except.ok (StreamResponse.mk false 500 [] ReadEnd.done)) =
      [Event.complete]
    ∧ Event.error ∉
        streamMessage demoParse
          (Except.ok (StreamResponse.mk false 500 [] ReadEnd.done)) := by
  decide

/-! ## Claim C4 -/

/-- C4: a `data: ` frame whose payload is not `[DONE]` and fails to parse
is skipped: processing of the remaining lines is exactly as if the frame
were absent, no `onChunk` is produced for it, and no `onError` is ever
produced by line processing. -/
theorem stream_malformed_frame_skipped {α : Type} (parse : JStr → Option α)
    (line : JStr) (hs : jsStartsWith dataMarker line = true)
    (hd : jsDrop 6 line ≠ doneLit) (hp : parse (jsDrop 6 line) = none)
    (r : List JStr) :
    processLines parse (line :: r) = processLines parse r
    ∧ ∀ ls : List JStr, Event.error ∉ (processLines parse ls).1 := by
  constructor
  · simp [processLines, hs, hd, hp]
  · exact processLines_no_error parse

theorem stream_malformed_frame_skipped_witness :
    processLines demoParse (str "data: \x7b\"a" :: [lineOf payloadA2]) =
      processLines demoParse [lineOf payloadA2]
    ∧ Event.error ∉ (processLines demoParse [str "data: \x7b\"a", lineOf payloadA2]).1 :=
  ⟨(stream_malformed_frame_skipped demoParse (str "data: \x7b\"a") (by decide)
      (by decide) (by decide) [lineOf payloadA2]).1,
    (stream_malformed_frame_skipped demoParse (str "data: \x7b\"a") (by decide)
      (by decide) (by decide) [lineOf payloadA2]).2
      [str "data: \x7b\"a", lineOf payloadA2]⟩

/-! ## Claim C3 -/

/-- C3 (amended): chunks are delivered to `onChunk` in the exact order their
frames appear on the wire, for every distribution of the frames into reads
in which each read consists of whole frames; a frame split across two reads
is *not* assembled (see the counterexample). -/
theorem stream_chunks_in_wire_order {α : Type} (parse : JStr → Option α)
    (pairs : List (JStr × α))
    (hp : ∀ q ∈ pairs, parse q.1 = some q.2 ∧ ('\n' : Char) ∉ q.1 ∧ q.1 ≠ doneLit)
    (blocks : List (List JStr))
    (hb : blocks.flatten = (pairs.map fun q => frameOf q.1) ++ [frameOf doneLit])
    (e : ReadEnd) :
    processStream parse (blocks.map List.flatten) e =
      (pairs.map fun q => Event.chunk q.2) ++ [Event.complete] :=
  processStream_whole_frames parse blocks pairs hp hb e

theorem stream_chunks_in_wire_order_witness :
    processStream demoParse
      ([[frameOf payloadA2], [frameOf doneLit]].map List.flatten) ReadEnd.done =
      ([(payloadA2, DemoVal.a2)].map fun q => Event.chunk q.2) ++ [Event.complete] :=
  stream_chunks_in_wire_order demoParse [(payloadA2, DemoVal.a2)]
    (by
      have hp2 : demoParse payloadA2 = some DemoVal.a2 := by decide
      have hn2 : ('\n' : Char) ∉ payloadA2 := by decide
      have hd2 : payloadA2 ≠ doneLit := by decide
      intro q hq
      rcases List.mem_cons.1 hq with h | hq
      · subst h; exact ⟨hp2, hn2, hd2⟩
      · simp at hq)
    [[frameOf payloadA2], [frameOf doneLit]] (by decide) ReadEnd.done

/-- Reads whose decoded content is the frame `data: {"a":1}\n` followed by
the sentinel frame, with the first frame split across the two reads. -/
def splitReadsC3 : List JStr :=
  [str "data: \x7b\"a\":1", str "\x7d\ndata: [DONE]\n"]

/-- C3 as stated is false: a `data: {"a":1}\n` frame whose bytes arrive
split across two successive reads is not assembled into a complete line —
the source keeps no buffer across reads — so the chunk is lost: the stream
delivers no `onChunk` at all even though the payload parses. -/
theorem stream_split_frame_counterexample :
    splitReadsC3.flatten = (frameOf payloadA1 ++ frameOf doneLit)
    ∧ demoParse payloadA1 = some DemoVal.a1
    ∧ processStream demoParse splitReadsC3 ReadEnd.done = [Event.complete]
    ∧ Event.chunk DemoVal.a1 ∉ processStream demoParse splitReadsC3 ReadEnd.done := by
  decide

/-! ## Transport client error messages (`api.js`, `request` / `uploadDocuments`) -/

/-- The parsed JSON body of a non-OK response, reduced to what the source
reads from it: its `detail` field (`none` when the field is absent). -/
structure ErrorBody where
  detail : Option String
deriving DecidableEq, Repr

/-- JavaScript `x || fallback` for a possibly-absent string `x`:
`undefined` (absent field) and the empty string are falsy and select the
fallback. -/
def jsOrElse (v : Option String) (fallback : String) : String :=
  match v with
  | some s => if s = "" then fallback else s
  | none => fallback

/-- The message of the error thrown by `request` for a non-OK response
(`api.js` lines 27–30): `error.detail || \`HTTP error ${response.status}\``
where `error` is `await response.json().catch(() => ({}))`; `body = none`
models a body that fails to parse as JSON (mapped to `{}`). -/
def requestErrorMessage (body : Option ErrorBody) (status : Nat) : String :=
  jsOrElse (body.getD (ErrorBody.mk none)).detail ("HTTP error " ++ toString status)

/-- The message of the error thrown by `uploadDocuments` for a non-OK
response (`api.js` lines 79–82): `error.detail || 'Upload failed'`. -/
def uploadErrorMessage (body : Option ErrorBody) : String :=
  jsOrElse (body.getD (ErrorBody.mk none)).detail "Upload failed"

/-! ## Claim C10 -/

/-- C10 (amended): the thrown message equals the server `detail` only when
the body parses and `detail` is a *non-empty* string; in every other case
(`detail` absent, body unparsable, or `detail` present but empty — all
falsy under `||`), `request` falls back to `HTTP error <status>` while
`uploadDocuments` falls back to the fixed text `Upload failed`, which does
not mention the status code. -/
theorem transport_error_messages (b : Option ErrorBody) (s : Nat) :
    (∀ d : String, b = some (ErrorBody.mk (some d)) → d ≠ "" →
      requestErrorMessage b s = d ∧ uploadErrorMessage b = d)
    ∧ ((b = none ∨ b = some (ErrorBody.mk none) ∨ b = some (ErrorBody.mk (some ""))) →
      requestErrorMessage b s = "HTTP error " ++ toString s
        ∧ uploadErrorMessage b = "Upload failed") := by
  constructor
  · intro d hb hd
    subst hb
    simp [requestErrorMessage, uploadErrorMessage, jsOrElse, hd]
  · intro hb
    rcases hb with hb | hb | hb <;> subst hb <;>
      simp [requestErrorMessage, uploadErrorMessage, jsOrElse]

theorem transport_error_messages_witness :
    (requestErrorMessage (some (ErrorBody.mk (some "boom"))) 404 = "boom"
      ∧ uploadErrorMessage (some (ErrorBody.mk (some "boom"))) = "boom")
    ∧ (requestErrorMessage none 404 = "HTTP error " ++ toString 404
      ∧ uploadErrorMessage none = "Upload failed") :=
  ⟨(transport_error_messages (some (ErrorBody.mk (some "boom"))) 404).1 "boom" rfl
      (by decide),
    (transport_error_messages none 404).2 (Or.inl rfl)⟩

/-- C10 as stated is false: for a response whose body parses and whose
`detail` field is present (the empty string), the thrown message is not the
`detail` field — `||` treats it as falsy — and `uploadDocuments`' fallback
message is the fixed `Upload failed`, not a message based on the status
code (it is the same for status 404 and 500). -/
theorem transport_error_messages_counterexample :
    requestErrorMessage (some (ErrorBody.mk (some ""))) 500 = "HTTP error 500"
    ∧ ("HTTP error 500" : String) ≠ ""
    ∧ uploadErrorMessage (some (ErrorBody.mk (some ""))) = "Upload failed"
    ∧ uploadErrorMessage none = "Upload failed" := by
  refine ⟨?_, by decide, by decide, by decide⟩
  decide

/-! ## Chat orchestrator (App.jsx, `sendMessage`) -/

/-- A reference attached to an assistant answer (`document_name`,
`page_number`, App.jsx lines 302–308). -/
structure Reference where
  document_name : String
  page_number : Nat
deriving DecidableEq, Repr

/-- A chat history entry: `{role:'user', content}` or
`{role:'assistant', content, references}` (App.jsx lines 132, 138–142). -/
inductive ChatMessage where
  | user (content : JStr)
  | assistant (content : JStr) (references : List Reference)
deriving DecidableEq, Repr

/-- The body of a successful `/chat/message` response: `answer` and
`references`. -/
structure ChatResponse where
  answer : JStr
  references : List Reference
deriving DecidableEq, Repr

/-- The state touched by `sendMessage`: session id, history, input box,
loading flag and error banner (App.jsx lines 26–32). -/
structure ChatState where
  sessionId : Option String
  messages : List ChatMessage
  inputMessage : JStr
  isLoading : Bool
  error : Option String
deriving DecidableEq, Repr

/-- The synchronous prefix of `sendMessage` (App.jsx lines 127–134): the
guard `!inputMessage.trim() || !sessionId || isLoading` rejects as a no-op;
otherwise the input box is cleared, the trimmed user message is appended to
history, the loading flag is set and the error banner cleared — all before
the network call. The second component is the text handed to the network
call (`none` when the guard rejected). -/
def sendMessageStart (st : ChatState) : ChatState × Option JStr :=
  if jsTrim st.inputMessage = [] ∨ st.sessionId = none ∨ st.isLoading = true then
    (st, none)
  else
    let userMessage := jsTrim st.inputMessage
    ({ st with
        inputMessage := []
        messages := st.messages ++ [ChatMessage.user userMessage]
        isLoading := true
        error := none },
      some userMessage)

/-- The continuation of `sendMessage` once `apiService.sendMessage` settles
(App.jsx lines 136–148): success appends the assistant message carrying
`response.answer` and `response.references`; failure sets the error banner
text; the `finally` block clears the loading flag in both cases. -/
def sendMessageSettle (st : ChatState) (result : Except Unit ChatResponse) : ChatState :=
  let st1 :=
    match result with
    | Except.ok resp =>
      { st with messages :=
          st.messages ++ [ChatMessage.assistant resp.answer resp.references] }
    | Except.error _ => { st with error := some "Error al obtener respuesta" }
  { st1 with isLoading := false }

/-- The whole `sendMessage` operation, given how the chat call settles. -/
def sendMessage (st : ChatState) (result : Except Unit ChatResponse) : ChatState :=
  match sendMessageStart st with
  | (st1, none) => st1
  | (st1, some _) => sendMessageSettle st1 result

/-! ## Claim C6 -/

/-- C6: with a non-empty trimmed input, an active session and no send in
flight, a successful send leaves history equal to the prior history
extended by exactly the user message (trimmed) and then the assistant
message carrying the response's answer and references; and the user
message is already appended by the synchronous prefix, before the network
call. -/
theorem sendMessage_success_appends_two (st : ChatState) (resp : ChatResponse)
    (hne : jsTrim st.inputMessage ≠ [])
    (hs : st.sessionId ≠ none) (hl : st.isLoading = false) :
    (sendMessage st (Except.ok resp)).messages =
      st.messages ++ [ChatMessage.user (jsTrim st.inputMessage),
        ChatMessage.assistant resp.answer resp.references]
    ∧ (sendMessageStart st).1.messages =
      st.messages ++ [ChatMessage.user (jsTrim st.inputMessage)] := by
  have hguard : ¬(jsTrim st.inputMessage = [] ∨ st.sessionId = none ∨
      st.isLoading = true) := by
    push_neg
    exact ⟨hne, hs, by simp [hl]⟩
  constructor <;>
    simp [sendMessage, sendMessageStart, sendMessageSettle, hguard]

theorem sendMessage_success_appends_two_witness :
    (sendMessage (ChatState.mk (some "s1") [] (str "hi") false none)
        (Except.ok (ChatResponse.mk (str "ok") []))).messages =
      [] ++ [ChatMessage.user (jsTrim (str "hi")),
        ChatMessage.assistant (str "ok") []]
    ∧ (sendMessageStart (ChatState.mk (some "s1") [] (str "hi") false none)).1.messages =
      [] ++ [ChatMessage.user (jsTrim (str "hi"))] :=
  sendMessage_success_appends_two (ChatState.mk (some "s1") [] (str "hi") false none)
    (ChatResponse.mk (str "ok") []) (by decide) (by decide) rfl

/-! ## Claim C7 -/

/-- C7: when the chat call fails, the error banner is set, no assistant
message is appended — history is exactly the prior history plus the
optimistic user message, which is not rolled back — and the loading flag is
cleared; the loading flag is cleared on the success path too (the
`finally`-equivalent guarantee). -/
theorem sendMessage_failure_state (st : ChatState) (resp : ChatResponse)
    (hne : jsTrim st.inputMessage ≠ [])
    (hs : st.sessionId ≠ none) (hl : st.isLoading = false) :
    (sendMessage st (Except.error ())).messages =
      st.messages ++ [ChatMessage.user (jsTrim st.inputMessage)]
    ∧ (sendMessage st (Except.error ())).error = some "Error al obtener respuesta"
    ∧ (sendMessage st (Except.error ())).isLoading = false
    ∧ (sendMessage st (Except.ok resp)).isLoading = false := by
  have hguard : ¬(jsTrim st.inputMessage = [] ∨ st.sessionId = none ∨
      st.isLoading = true) := by
    push_neg
    exact ⟨hne, hs, by simp [hl]⟩
  refine ⟨?_, ?_, ?_, ?_⟩ <;>
    simp [sendMessage, sendMessageStart, sendMessageSettle, hguard]

theorem sendMessage_failure_state_witness :
    (sendMessage (ChatState.mk (some "s1") [] (str "hi") false none)
        (Except.error ())).messages = [] ++ [ChatMessage.user (jsTrim (str "hi"))]
    ∧ (sendMessage (ChatState.mk (some "s1") [] (str "hi") false none)
        (Except.error ())).error = some "Error al obtener respuesta"
    ∧ (sendMessage (ChatState.mk (some "s1") [] (str "hi") false none)
        (Except.error ())).isLoading = false
    ∧ (sendMessage (ChatState.mk (some "s1") [] (str "hi") false none)
        (Except.ok (ChatResponse.mk (str "ok") []))).isLoading = false :=
  sendMessage_failure_state (ChatState.mk (some "s1") [] (str "hi") false none)
    (ChatResponse.mk (str "ok") []) (by decide) (by decide) rfl

/-! ## Session/document orchestrator (App.jsx, `onDrop` / polling / delete) -/

/-- A dropped file, as far as `onDrop` reads it: name and byte size. -/
structure FileInfo where
  name : String
  size : Nat
deriving DecidableEq, Repr

/-- A client-side document entry (App.jsx lines 69–74): id, filename,
size, status. -/
structure Doc where
  id : String
  filename : String
  size : Nat
  status : String
deriving DecidableEq, Repr

/-- The temporary client id template
`` `temp - ${Date.now()} -${file.name} ` `` (App.jsx line 70, including its
literal spacing). -/
def mkTempId (now : Nat) (name : String) : String :=
  "temp - " ++ toString now ++ " -" ++ name ++ " "

/-- A freshly dropped document: temporary id, `pending` status
(App.jsx lines 69–74). -/
def mkPendingDoc (now : Nat) (f : FileInfo) : Doc :=
  Doc.mk (mkTempId now f.name) f.name f.size "pending"

/-- Phase 1 of `onDrop` (App.jsx line 75): the new pending documents are
appended to the list; `times` records the `Date.now()` value observed for
each file (the call happens once per file inside the `map`). -/
def dropDocs (docs : List Doc) (times : List Nat) (files : List FileInfo) : List Doc :=
  docs ++ (times.zip files).map (fun p => mkPendingDoc p.1 p.2)

/-- One entry of a successful upload response's `documents` array. -/
structure UploadDoc where
  filename : String
  document_id : String
deriving DecidableEq, Repr

/-- Phase 2 of `onDrop` (App.jsx lines 80–86): a document matched by
filename against the response receives the server id and moves to
`processing`; an unmatched document is unchanged. -/
def reconcileOne (resp : List UploadDoc) (doc : Doc) : Doc :=
  match resp.find? (fun d => d.filename == doc.filename) with
  | some m => { doc with id := m.document_id, status := "processing" }
  | none => doc

/-- The `setDocuments(prev => prev.map(...))` of phase 2. -/
def reconcileDocs (docs : List Doc) (resp : List UploadDoc) : List Doc :=
  docs.map (reconcileOne resp)

/-- One entry of a poll response's `documents` array. -/
structure PollDoc where
  document_id : String
  status : String
deriving DecidableEq, Repr

/-- The per-document poll merge (App.jsx lines 100–106): a document whose
id equals a server `document_id` takes the server status; others are
unchanged. -/
def mergeOne (resp : List PollDoc) (doc : Doc) : Doc :=
  match resp.find? (fun d => d.document_id == doc.id) with
  | some m => { doc with status := m.status }
  | none => doc

/-- The `setDocuments(prev => prev.map(...))` of the poll merge. -/
def mergeDocs (docs : List Doc) (resp : List PollDoc) : List Doc :=
  docs.map (mergeOne resp)

/-- `deleteDocument` (App.jsx lines 158–160): keep the documents whose id
differs. -/
def deleteDocument (docs : List Doc) (docId : String) : List Doc :=
  docs.filter (fun d => d.id != docId)

/-- The document-list operations of the orchestrator. -/
inductive DocOp where
  | drop (times : List Nat) (files : List FileInfo)
  | reconcile (resp : List UploadDoc)
  | poll (resp : List PollDoc)
  | remove (docId : String)
deriving DecidableEq, Repr

/-- Apply one operation to the document list. -/
def applyOp (docs : List Doc) : DocOp → List Doc
  | DocOp.drop times files => dropDocs docs times files
  | DocOp.reconcile resp => reconcileDocs docs resp
  | DocOp.poll resp => mergeDocs docs resp
  | DocOp.remove docId => deleteDocument docs docId

/-- Apply a sequence of operations. -/
def applyOps (docs : List Doc) : List DocOp → List Doc
  | [] => docs
  | op :: rest => applyOps (applyOp docs op) rest

/-- The ids of the current documents. -/
def idsOf (docs : List Doc) : List String := docs.map Doc.id

/-- The filenames of the current documents. -/
def filenamesOf (docs : List Doc) : List String := docs.map Doc.filename

/-- The uniqueness invariant of the document list: no two entries share an
id, and no two entries share a filename. -/
def DocsInv (docs : List Doc) : Prop :=
  (idsOf docs).Nodup ∧ (filenamesOf docs).Nodup

/-- Side conditions under which an operation preserves `DocsInv` (the
amendment of claim C5): dropped files bring fresh, pairwise-distinct ids
and filenames; upload responses carry pairwise-distinct server ids that are
fresh with respect to the current list. Polling and deletion need nothing. -/
def OkOp (docs : List Doc) : DocOp → Prop
  | DocOp.drop times files =>
    (idsOf ((times.zip files).map fun p => mkPendingDoc p.1 p.2)).Nodup
      ∧ (∀ i ∈ idsOf ((times.zip files).map fun p => mkPendingDoc p.1 p.2),
          i ∉ idsOf docs)
      ∧ (filenamesOf ((times.zip files).map fun p => mkPendingDoc p.1 p.2)).Nodup
      ∧ (∀ f ∈ filenamesOf ((times.zip files).map fun p => mkPendingDoc p.1 p.2),
          f ∉ filenamesOf docs)
  | DocOp.reconcile resp =>
    (resp.map UploadDoc.document_id).Nodup
      ∧ (∀ i ∈ resp.map UploadDoc.document_id, i ∉ idsOf docs)
  | DocOp.poll _ => True
  | DocOp.remove _ => True

/-- Side conditions along a whole trace. -/
def OkOps : List Doc → List DocOp → Prop
  | _, [] => True
  | docs, op :: rest => OkOp docs op ∧ OkOps (applyOp docs op) rest

theorem mergeOne_id (resp : List PollDoc) (d : Doc) : (mergeOne resp d).id = d.id := by
  cases h : resp.find? (fun x => x.document_id == d.id) <;> simp [mergeOne, h]

theorem mergeOne_filename (resp : List PollDoc) (d : Doc) :
    (mergeOne resp d).filename = d.filename := by
  cases h : resp.find? (fun x => x.document_id == d.id) <;> simp [mergeOne, h]

theorem mergeOne_size (resp : List PollDoc) (d : Doc) :
    (mergeOne resp d).size = d.size := by
  cases h : resp.find? (fun x => x.document_id == d.id) <;> simp [mergeOne, h]

theorem reconcileOne_filename (resp : List UploadDoc) (d : Doc) :
    (reconcileOne resp d).filename = d.filename := by
  cases h : resp.find? (fun x => x.filename == d.filename) <;> simp [reconcileOne, h]

theorem idsOf_mergeDocs (docs : List Doc) (resp : List PollDoc) :
    idsOf (mergeDocs docs resp) = idsOf docs := by
  induction docs with
  | nil => rfl
  | cons d docs ih =>
    simp only [idsOf, mergeDocs, List.map_cons] at ih ⊢
    rw [mergeOne_id]
    exact congrArg (d.id :: ·) ih

theorem filenamesOf_mergeDocs (docs : List Doc) (resp : List PollDoc) :
    filenamesOf (mergeDocs docs resp) = filenamesOf docs := by
  induction docs with
  | nil => rfl
  | cons d docs ih =>
    simp only [filenamesOf, mergeDocs, List.map_cons] at ih ⊢
    rw [mergeOne_filename]
    exact congrArg (d.filename :: ·) ih

theorem filenamesOf_reconcileDocs (docs : List Doc) (resp : List UploadDoc) :
    filenamesOf (reconcileDocs docs resp) = filenamesOf docs := by
  induction docs with
  | nil => rfl
  | cons d docs ih =>
    simp only [filenamesOf, reconcileDocs, List.map_cons] at ih ⊢
    rw [reconcileOne_filename]
    exact congrArg (d.filename :: ·) ih

theorem docsInv_drop (docs : List Doc) (times : List Nat) (files : List FileInfo)
    (hInv : DocsInv docs) (hok : OkOp docs (DocOp.drop times files)) :
    DocsInv (dropDocs docs times files) := by
  obtain ⟨hid, hfn⟩ := hInv
  obtain ⟨hid2, hdisj, hfn2, hfdisj⟩ := hok
  constructor
  · rw [idsOf, dropDocs, List.map_append]
    exact List.Nodup.append hid hid2 (fun a h1 h2 => hdisj a h2 h1)
  · rw [filenamesOf, dropDocs, List.map_append]
    exact List.Nodup.append hfn hfn2 (fun a h1 h2 => hfdisj a h2 h1)

theorem docsInv_reconcile (docs : List Doc) (resp : List UploadDoc)
    (hInv : DocsInv docs) (hok : OkOp docs (DocOp.reconcile resp)) :
    DocsInv (reconcileDocs docs resp) := by
  obtain ⟨hid, hfn⟩ := hInv
  obtain ⟨hrid, hdisj⟩ := hok
  have hidInj : ∀ x ∈ docs, ∀ y ∈ docs, x.id = y.id → x = y :=
    List.inj_on_of_nodup_map hid
  have hfnInj : ∀ x ∈ docs, ∀ y ∈ docs, x.filename = y.filename → x = y :=
    List.inj_on_of_nodup_map hfn
  have hrespInj : ∀ a ∈ resp, ∀ b ∈ resp, a.document_id = b.document_id → a = b :=
    List.inj_on_of_nodup_map hrid
  have hnodup : docs.Nodup := List.Nodup.of_map Doc.id hid
  constructor
  · rw [idsOf, reconcileDocs, List.map_map]
    refine List.Nodup.map_on ?_ hnodup
    intro x hx y hy heq
    simp only [Function.comp] at heq
    cases hfx : resp.find? (fun d => d.filename == x.filename) with
    | some m1 =>
      have hm1mem : m1 ∈ resp := List.mem_of_find?_eq_some hfx
      have hm1fn : m1.filename = x.filename := by
        have := List.find?_some hfx
        simpa using this
      cases hfy : resp.find? (fun d => d.filename == y.filename) with
      | some m2 =>
        have hm2mem : m2 ∈ resp := List.mem_of_find?_eq_some hfy
        have hm2fn : m2.filename = y.filename := by
          have := List.find?_some hfy
          simpa using this
        rw [reconcileOne, hfx, reconcileOne, hfy] at heq
        simp only at heq
        have hm12 : m1 = m2 := hrespInj m1 hm1mem m2 hm2mem heq
        exact hfnInj x hx y hy (by rw [← hm1fn, hm12, hm2fn])
      | none =>
        rw [reconcileOne, hfx, reconcileOne, hfy] at heq
        simp only at heq
        exact absurd (heq ▸ List.mem_map_of_mem UploadDoc.document_id hm1mem)
          (fun hmem => hdisj m1.document_id hmem
            (heq ▸ List.mem_map_of_mem Doc.id hy))
    | none =>
      cases hfy : resp.find? (fun d => d.filename == y.filename) with
      | some m2 =>
        have hm2mem : m2 ∈ resp := List.mem_of_find?_eq_some hfy
        rw [reconcileOne, hfx, reconcileOne, hfy] at heq
        simp only at heq
        exact absurd (List.mem_map_of_mem UploadDoc.document_id hm2mem)
          (fun hmem => hdisj m2.document_id hmem
            (heq ▸ List.mem_map_of_mem Doc.id hx))
      | none =>
        rw [reconcileOne, hfx, reconcileOne, hfy] at heq
        simp only at heq
        exact hidInj x hx y hy heq
  · rw [filenamesOf_reconcileDocs]
    exact hfn

theorem docsInv_poll (docs : List Doc) (resp : List PollDoc)
    (hInv : DocsInv docs) : DocsInv (mergeDocs docs resp) := by
  rw [DocsInv, idsOf_mergeDocs, filenamesOf_mergeDocs]
  exact hInv

theorem docsInv_remove (docs : List Doc) (docId : String)
    (hInv : DocsInv docs) : DocsInv (deleteDocument docs docId) := by
  obtain ⟨hid, hfn⟩ := hInv
  have hsub : List.Sublist (deleteDocument docs docId) docs := List.filter_sublist docs
  exact ⟨List.Nodup.sublist (List.Sublist.map Doc.id hsub) hid,
    List.Nodup.sublist (List.Sublist.map Doc.filename hsub) hfn⟩

/-! ## Claim C5 -/

/-- C5 (amended): document ids stay unique along every operation sequence
*provided* each drop introduces fresh pairwise-distinct temporary ids and
fresh pairwise-distinct filenames, and each upload response carries fresh
pairwise-distinct server ids. Without the filename side conditions the
claim is false — see the counterexample, where two files sharing a filename
are both reconciled to the same server id. -/
theorem docs_ids_unique (docs : List Doc) (ops : List DocOp)
    (hInv : DocsInv docs) (hok : OkOps docs ops) : DocsInv (applyOps docs ops) := by
  induction ops generalizing docs with
  | nil => exact hInv
  | cons op rest ih =>
    obtain ⟨hok1, hok2⟩ := hok
    refine ih (applyOp docs op) ?_ hok2
    cases op with
    | drop times files => exact docsInv_drop docs times files hInv hok1
    | reconcile resp => exact docsInv_reconcile docs resp hInv hok1
    | poll resp => exact docsInv_poll docs resp hInv
    | remove docId => exact docsInv_remove docs docId hInv

theorem docs_ids_unique_witness :
    DocsInv (applyOps []
      [DocOp.drop [0, 1] [FileInfo.mk "a.pdf" 1, FileInfo.mk "b.pdf" 2],
        DocOp.reconcile [UploadDoc.mk "a.pdf" "D1", UploadDoc.mk "b.pdf" "D2"],
        DocOp.poll [PollDoc.mk "D1" "completed"],
        DocOp.remove "D2"]) :=
  docs_ids_unique []
    [DocOp.drop [0, 1] [FileInfo.mk "a.pdf" 1, FileInfo.mk "b.pdf" 2],
      DocOp.reconcile [UploadDoc.mk "a.pdf" "D1", UploadDoc.mk "b.pdf" "D2"],
      DocOp.poll [PollDoc.mk "D1" "completed"],
      DocOp.remove "D2"]
    ⟨List.nodup_nil, List.nodup_nil⟩
    ⟨⟨by decide, by decide, by decide, by decide⟩,
      ⟨by decide, by decide⟩, trivial, trivial, trivial⟩

/-- C5 as stated is false: dropping two files that share the filename
`a.pdf` (at distinct timestamps, so the temporary ids are distinct) and
reconciling them against an upload response for that filename assigns the
same server id `D1` to both documents — the filename-based match
(`response.documents.find(d => d.filename === doc.filename)`) cannot tell
the two entries apart. -/
theorem docs_ids_unique_counterexample :
    ¬ (idsOf (applyOps []
        [DocOp.drop [0, 1] [FileInfo.mk "a.pdf" 1, FileInfo.mk "a.pdf" 2],
          DocOp.reconcile [UploadDoc.mk "a.pdf" "D1"]])).Nodup := by
  decide

/-! ## Polling loop (App.jsx, `pollProcessingStatus`) -/

/-- A poll response body: the job's aggregate `status` and per-document
statuses. -/
structure JobStatus where
  status : String
  documents : List PollDoc
deriving DecidableEq, Repr

/-- The terminal test of the polling loop (App.jsx line 108): the job is
terminal when its aggregate status is `completed` or `failed`. -/
def isTerminal (s : JobStatus) : Bool :=
  s.status == "completed" || s.status == "failed"

/-- Whether one settled poll iteration schedules another: a successful
non-terminal response does (`setTimeout(poll, 2000)`, line 109); a terminal
response stops the loop (line 111); a throwing poll is logged and not
rescheduled (lines 113–115). -/
def continuesAfter : Except Unit JobStatus → Bool
  | Except.error _ => false
  | Except.ok s => !isTerminal s

/-- The fixed polling interval of `setTimeout(poll, 2000)` (App.jsx
line 109). -/
def pollDelayMs : Nat := 2000

/-- The scheduling decision after one poll settles: `some d` schedules the
next poll after `d` milliseconds, `none` stops the loop. -/
def scheduleAfter (r : Except Unit JobStatus) : Option Nat :=
  if continuesAfter r then some pollDelayMs else none

/-- Whether the loop ever issues its `n`-th status request (0-based), given
how the server answers each request: the first request is always issued,
and request `n+1` is issued exactly when request `n` was issued and its
outcome rescheduled the loop. -/
def requested (responses : Nat → Except Unit JobStatus) : Nat → Bool
  | 0 => true
  | n + 1 => requested responses n && continuesAfter (responses n)

/-- Once an iteration does not reschedule, no later request is ever
issued. -/
theorem requested_stops (responses : Nat → Except Unit JobStatus) (n : Nat)
    (h : continuesAfter (responses n) = false) :
    ∀ m, n < m → requested responses m = false := by
  intro m
  induction m with
  | zero => intro hm; exact absurd hm (Nat.not_lt_zero n)
  | succ k ih =>
    intro hm
    rcases Nat.lt_succ_iff_lt_or_eq.1 hm with h1 | h1
    · simp [requested, ih h1]
    · subst h1; simp [requested, h]

/-! ## Claim C8 -/

/-- C8: a non-terminal successful poll reschedules the next poll after the
fixed 2000 ms interval; once a poll observes a terminal status
(`completed` or `failed`), no later status request is ever issued by the
loop; and when a poll throws, the loop is likewise never rescheduled. -/
theorem polling_stops_on_terminal (responses : Nat → Except Unit JobStatus) (n : Nat) :
    (continuesAfter (responses n) = true →
      scheduleAfter (responses n) = some 2000)
    ∧ (∀ s, responses n = Except.ok s → isTerminal s = true →
        ∀ m, n < m → requested responses m = false)
    ∧ (responses n = Except.error () →
        ∀ m, n < m → requested responses m = false) := by
  refine ⟨?_, ?_, ?_⟩
  · intro h
    simp [scheduleAfter, h, pollDelayMs]
  · intro s hs ht
    refine requested_stops responses n ?_
    simp [continuesAfter, hs, ht]
  · intro hs
    refine requested_stops responses n ?_
    simp [continuesAfter, hs]

/-- A concrete server: the first poll answers `processing`, every later
poll `completed`. -/
def demoResponses : Nat → Except Unit JobStatus := fun n =>
  if n = 0 then Except.ok (JobStatus.mk "processing" [])
  else Except.ok (JobStatus.mk "completed" [])

theorem polling_stops_on_terminal_witness :
    scheduleAfter (demoResponses 0) = some 2000
    ∧ requested demoResponses 2 = false
    ∧ requested demoResponses 3 = false :=
  ⟨(polling_stops_on_terminal demoResponses 0).1 (by decide),
    (polling_stops_on_terminal demoResponses 1).2.1 (JobStatus.mk "completed" [])
      rfl (by decide) 2 (by decide),
    (polling_stops_on_terminal demoResponses 1).2.1 (JobStatus.mk "completed" [])
      rfl (by decide) 3 (by decide)⟩

/-! ## Claim C9 -/

/-- C9: the poll merge touches exactly the documents whose id matches a
server `document_id`: the list keeps its length, every entry keeps its id,
filename and size, an entry with no matching response entry is entirely
unchanged, and an entry whose id is found in the response takes the found
entry's status. -/
theorem poll_merge_frame_effect (docs : List Doc) (resp : List PollDoc) :
    (mergeDocs docs resp).length = docs.length
    ∧ ∀ (i : Nat) (h : i < docs.length) (h2 : i < (mergeDocs docs resp).length),
        (((mergeDocs docs resp).get ⟨i, h2⟩).id = (docs.get ⟨i, h⟩).id
          ∧ ((mergeDocs docs resp).get ⟨i, h2⟩).filename = (docs.get ⟨i, h⟩).filename
          ∧ ((mergeDocs docs resp).get ⟨i, h2⟩).size = (docs.get ⟨i, h⟩).size)
        ∧ ((∀ r ∈ resp, r.document_id ≠ (docs.get ⟨i, h⟩).id) →
            (mergeDocs docs resp).get ⟨i, h2⟩ = docs.get ⟨i, h⟩)
        ∧ (∀ m, resp.find? (fun d => d.document_id == (docs.get ⟨i, h⟩).id) = some m →
            ((mergeDocs docs resp).get ⟨i, h2⟩).status = m.status) := by
  constructor
  · simp [mergeDocs]
  · intro i h h2
    have hget : (mergeDocs docs resp).get ⟨i, h2⟩ = mergeOne resp (docs.get ⟨i, h⟩) := by
      simp [mergeDocs]
    refine ⟨⟨?_, ?_, ?_⟩, ?_, ?_⟩
    · rw [hget, mergeOne_id]
    · rw [hget, mergeOne_filename]
    · rw [hget, mergeOne_size]
    · intro hno
      have hfind : resp.find? (fun d => d.document_id == (docs.get ⟨i, h⟩).id) = none := by
        rw [List.find?_eq_none]
        intro r hr
        simpa using hno r hr
      rw [hget, mergeOne, hfind]
    · intro m hm
      rw [hget, mergeOne, hm]

theorem poll_merge_frame_effect_witness :
    ((mergeDocs [Doc.mk "x" "f.pdf" 1 "processing"]
        [PollDoc.mk "x" "completed"]).get ⟨0, by decide⟩).status = "completed"
    ∧ (mergeDocs [Doc.mk "x" "f.pdf" 1 "processing"]
        [PollDoc.mk "x" "completed"]).length = 1 :=
  ⟨(poll_merge_frame_effect [Doc.mk "x" "f.pdf" 1 "processing"]
      [PollDoc.mk "x" "completed"]).2 0 (by decide) (by decide) |>.2.2
      (PollDoc.mk "x" "completed") (by decide),
    (poll_merge_frame_effect [Doc.mk "x" "f.pdf" 1 "processing"]
      [PollDoc.mk "x" "completed"]).1⟩
